import Mathlib

/-!
Shallow embedding of `src/src/tweenable.js` (the shifty tween engine).

Modeling conventions:
* JS numbers are rationals (`ℚ`); all arithmetic in the engine is exact
  field arithmetic on finite values.
* A JS object holding numeric properties is an association list in key
  insertion order (`St`).  Reading an absent key, which in JS yields
  `undefined` and then `NaN` arithmetic, is given the junk value `0`;
  theorems only read keys under key-presence hypotheses.
* The global `tweenQueue` holds object references; instances are
  identified by a `Nat` id, the queue is a `List Nat`, and the store of
  instances is a function `Nat → Tween`.
* The caller-supplied `start`/`step` callbacks and the filter hooks
  (`Tweenable.filters` is the empty registry in the source) do not
  mutate engine state; their invocations are recorded in observation
  logs on the tween (`startLog`, `stepLog`, `hookLog`).  `tickLog`
  records the `now` argument of each `processTween` call.
* The per-tween promise is a settle-once `Deferred` value; `_resolve` /
  `_reject` settle it only when it is still pending, as JS promises do.
-/

namespace Shifty

/-- A JS state object: property names to numeric values, in insertion order. -/
abbrev St := List (String × ℚ)

/-- Property read, JS style (`obj[key]`); for keys that are present this is
the stored value. -/
def lookupQ (s : St) (k : String) : ℚ := (List.lookup k s).getD 0

/-- The keys of a state object, in order. -/
def keysOf (s : St) : List String := s.map Prod.fst

/-- One entry of an easing object: a curve name (string) or a direct
function, the string-or-function union used by the source. -/
inductive EasingSpec where
  | name (s : String)
  | fn (f : ℚ → ℚ)

/-- An easing object: property names to easing entries. -/
abbrev EasingObj := List (String × EasingSpec)

/-- The `easing` argument of `composeEasingObject`: a single string, a
single function, or an object (a possibly partial mapping). -/
inductive EasingArg where
  | str (s : String)
  | func (f : ℚ → ℚ)
  | obj (m : EasingObj)

/-- `const DEFAULT_EASING = 'linear'` -/
def DEFAULT_EASING : String := "linear"

/-- `const DEFAULT_DURATION = 500` -/
def DEFAULT_DURATION : ℚ := 500

/-- JS truthiness of a string-or-function value: a function is truthy,
a string is truthy iff non-empty. -/
def truthy : EasingSpec → Bool
  | .name s => s != ""
  | .fn _ => true

/-- `tweenProp(start, end, easingFunc, position)` =
`start + (end - start) * easingFunc(position)`. -/
def tweenProp (start end_ : ℚ) (easingFunc : ℚ → ℚ) (position : ℚ) : ℚ :=
  start + (end_ - start) * easingFunc position

/-- The `normalizedPosition` computed inside `tweenProps`:
`forPosition < timestamp ? 0 : (forPosition - timestamp) / duration`. -/
def normalizedPosition (forPosition timestamp duration : ℚ) : ℚ :=
  if forPosition < timestamp then 0 else (forPosition - timestamp) / duration

/-- `typeof easingObjectProp === 'function' ? easingObjectProp :
formulas[easingObjectProp]`; `formulas` is the easing registry, external
to this file per the source (`import * as easingFunctions`), modeled as a
total function from names to curves. -/
def resolveEasing (formulas : String → ℚ → ℚ) : EasingSpec → ℚ → ℚ
  | .fn f => f
  | .name s => formulas s

/-- `easing[key]`.  The source always builds `easing` with exactly the
state's keys (via `composeEasingObject`), so the default entry is never
reached on source-reachable inputs. -/
def lookupEasing (easing : EasingObj) (k : String) : EasingSpec :=
  (List.lookup k easing).getD (EasingSpec.name DEFAULT_EASING)

/-- The value `tweenProps` writes for one key of the state (the body of
its `for` loop). -/
def tweenPropsVal (originalState targetState : St) (easing : EasingObj)
    (formulas : String → ℚ → ℚ) (forPosition duration timestamp : ℚ)
    (k : String) : ℚ :=
  tweenProp (lookupQ originalState k) (lookupQ targetState k)
    (resolveEasing formulas (lookupEasing easing k))
    (normalizedPosition forPosition timestamp duration)

/-- `tweenProps(forPosition, currentState, originalState, targetState,
duration, timestamp, easing)`: overwrites every key of `currentState`
with the interpolated value. -/
def tweenProps (forPosition : ℚ) (currentState originalState targetState : St)
    (duration timestamp : ℚ) (easing : EasingObj)
    (formulas : String → ℚ → ℚ) : St :=
  currentState.map fun kv =>
    (kv.1, tweenPropsVal originalState targetState easing formulas
      forPosition duration timestamp kv.1)

/-- The per-key value of the object branch of `composeEasingObject`:
`composedEasing[prop] || easing[prop] || DEFAULT_EASING` (the target
object is fresh, so its own entry is always undefined; note the JS `||`:
a present but falsy entry, i.e. an empty-string name, falls through to
the default). -/
def composeEntry (m : EasingObj) (k : String) : EasingSpec :=
  match List.lookup k m with
  | some v => if truthy v then v else EasingSpec.name DEFAULT_EASING
  | none => EasingSpec.name DEFAULT_EASING

/-- `composeEasingObject(fromTweenParams, easing = DEFAULT_EASING)`.
A single string or function is assigned to every key; an object is
filled per key by `composeEntry`. -/
def composeEasingObject (fromTweenParams : St) (easing : EasingArg) : EasingObj :=
  match easing with
  | .str s => fromTweenParams.map fun kv => (kv.1, EasingSpec.name s)
  | .func f => fromTweenParams.map fun kv => (kv.1, EasingSpec.fn f)
  | .obj m => fromTweenParams.map fun kv => (kv.1, composeEntry m kv.1)

/-- The per-tween promise: settled at most once. -/
inductive Deferred where
  | pending
  | resolved (s : St)
  | rejected (s : St)

/-- `this._resolve(state)`: settles only a pending promise. -/
def settleResolve (d : Deferred) (s : St) : Deferred :=
  match d with
  | .pending => .resolved s
  | _ => d

/-- `this._reject(state)`: settles only a pending promise. -/
def settleReject (d : Deferred) (s : St) : Deferred :=
  match d with
  | .pending => .rejected s
  | _ => d

/-- One `Tweenable` instance: its `_`-prefixed fields plus observation
logs for callback/hook invocations. -/
structure Tween where
  currentState : St
  originalState : St
  targetState : St
  easing : EasingObj
  delay : ℚ
  duration : ℚ
  timestamp : ℚ
  isTweening : Bool
  isPaused : Bool
  pausedAtTime : Option ℚ
  configured : Bool
  promise : Deferred
  stepLog : List (St × ℚ)
  hookLog : List String
  startLog : List St
  tickLog : List ℚ

/-- `isPlaying() { return this._isTweening && !this._isPaused; }` -/
def isPlaying (t : Tween) : Bool := t.isTweening && !t.isPaused

/-- The module-level mutable state: the `tweenQueue`, the store of
instances, and the `formulas` easing registry. -/
structure World where
  queue : List Nat
  tweens : Nat → Tween
  formulas : String → ℚ → ℚ

/-- Replace the instance stored under `id`. -/
def updTween (w : World) (id : Nat) (t : Tween) : World :=
  { w with tweens := fun j => if j = id then t else w.tweens j }

/-- `const index = tweenQueue.indexOf(this); tweenQueue.splice(index, 1);`
JS `indexOf` yields `-1` when the element is absent, and `splice(-1, 1)`
removes the LAST element (negative indices count from the end); on an
empty array it removes nothing. -/
def jsSpliceRemove (q : List Nat) (id : Nat) : List Nat :=
  match q.findIdx? (fun j => j == id) with
  | some i => q.take i ++ q.drop (i + 1)
  | none => q.dropLast

/-- The effect of `stop(gotoEnd)` on the instance itself: clear the
flags; if `gotoEnd`, run the hooks around a `position = 1` interpolation
pass (`tweenProps(1, ..., 1, 0, ...)`) and resolve with the final state,
else reject with the current state. -/
def stopTween (formulas : String → ℚ → ℚ) (gotoEnd : Bool) (t : Tween) : Tween :=
  let t1 := { t with isTweening := false, isPaused := false }
  if gotoEnd then
    let cur := tweenProps 1 t1.currentState t1.originalState t1.targetState 1 0
      t1.easing formulas
    { t1 with
      currentState := cur,
      hookLog := t1.hookLog ++ ["beforeTween", "afterTween", "afterTweenEnd"],
      promise := settleResolve t1.promise cur }
  else
    { t1 with promise := settleReject t1.promise t1.currentState }

/-- `stop(gotoEnd = false)`: instance effect plus removal from the queue. -/
def stop (gotoEnd : Bool) (w : World) (id : Nat) : World :=
  { updTween w id (stopTween w.formulas gotoEnd (w.tweens id)) with
    queue := jsSpliceRemove w.queue id }

/-- The not-yet-ended branch of `processTween`: `beforeTween` hook, the
interpolation pass (with the degenerate `currentTime = 1, duration = 1,
timestamp = 1` values while still inside the delay window, else with the
delay folded into a local copy of the timestamp), `afterTween` hook, and
the `step(currentState, attachment, offset)` callback. -/
def stepTween (formulas : String → ℚ → ℚ) (now : ℚ) (t : Tween) : Tween :=
  let endTime := t.timestamp + t.delay + t.duration
  let currentTime := min now endTime
  let offset := t.duration - (endTime - currentTime)
  let cur :=
    if currentTime < t.timestamp + t.delay then
      tweenProps 1 t.currentState t.originalState t.targetState 1 1 t.easing formulas
    else
      tweenProps currentTime t.currentState t.originalState t.targetState t.duration
        (t.timestamp + t.delay) t.easing formulas
  { t with
    currentState := cur,
    hookLog := t.hookLog ++ ["beforeTween", "afterTween"],
    stepLog := t.stepLog ++ [(cur, offset)] }

/-- `processTween(tween, now)`.  Note that the source destructures
`_duration`/`_timestamp` into `let` locals, so the `_timestamp += _delay`
of the non-ended branch mutates only a per-call local copy, never the
stored field. -/
def processTween (now : ℚ) (w : World) (id : Nat) : World :=
  let t0 := w.tweens id
  let t := { t0 with tickLog := t0.tickLog ++ [now] }
  let endTime := t.timestamp + t.delay + t.duration
  let currentTime := min now endTime
  let offset := t.duration - (endTime - currentTime)
  if endTime ≤ currentTime then
    stop true (updTween w id { t with stepLog := t.stepLog ++ [(t.targetState, offset)] }) id
  else
    updTween w id (stepTween w.formulas now t)

/-- `pause()`: record the pause time and set the paused flag; the queue
is untouched. -/
def pause (now : ℚ) (w : World) (id : Nat) : World :=
  updTween w id { w.tweens id with pausedAtTime := some now, isPaused := true }

/-- `resume()`: if paused, shift the timestamp forward by the elapsed
pause duration (`null` coerces to `0` in JS arithmetic, hence `getD 0`);
clear the pause flag, set the tweening flag, and unconditionally
`tweenQueue.unshift(this)`. -/
def resume (now : ℚ) (w : World) (id : Nat) : World :=
  let t := w.tweens id
  let t1 :=
    if t.isPaused then
      { t with timestamp := t.timestamp + (now - t.pausedAtTime.getD 0) }
    else t
  let t2 := { t1 with isPaused := false, isTweening := true }
  { updTween w id t2 with queue := id :: w.queue }

/-- `seek(millisecond)`: clamp to `≥ 0`; return early when
`_timestamp + millisecond === 0`; set `_timestamp = currentTime -
millisecond`; if not playing, run one synchronous `processTween` at the
captured time and then `pause()`.  The source calls `Tweenable.now()`
again inside `pause()`; the model treats the whole synchronous call as
one instant. -/
def seek (now ms : ℚ) (w : World) (id : Nat) : World :=
  let ms1 := max ms 0
  if (w.tweens id).timestamp + ms1 = 0 then w
  else
    let w1 := updTween w id { w.tweens id with timestamp := now - ms1 }
    if isPlaying (w1.tweens id) then w1
    else
      let w2 := updTween w1 id { w1.tweens id with isTweening := true, isPaused := false }
      pause now (processTween now w2 id) id

/-- The fields of `tweenConfig` relevant to the engine (`attachment` is
opaque and unused by the engine itself; `start`/`step`/`promise` are
modeled by the logs and `Deferred`).  `fromState`/`toState` stand for the
source's `from`/`to` (Lean keywords). -/
structure Config where
  delay : ℚ
  duration : ℚ
  easing : Option EasingArg
  fromState : Option St
  toState : Option St

/-- The defaults of `setConfig`'s destructuring pattern. -/
def defaultConfig : Config :=
  { delay := 0, duration := DEFAULT_DURATION, easing := none,
    fromState := none, toState := none }

/-- JS object spread `{ ...a, ...b }`: `a`'s keys in order with `b`'s
values winning, then `b`'s keys absent from `a`, in order. -/
def spread2 (a b : St) : St :=
  (a.map fun kv => (kv.1, ((List.lookup kv.1 b).getD kv.2))) ++
    b.filter fun kv => (List.lookup kv.1 a).isNone

/-- `setConfig(config)`: snapshot the states (`_currentState` from
`from || get()`, `_originalState = get()` of the fresh current state,
`_targetState = { ..._currentState, ...(to || get()) }`), compose the
easing object, fire `tweenCreated`, and create a fresh pending promise. -/
def setConfig (c : Config) (w : World) (id : Nat) : World :=
  let t := w.tweens id
  let cur := c.fromState.getD t.currentState
  let tgt := spread2 cur (c.toState.getD cur)
  updTween w id
    { t with
      configured := true,
      pausedAtTime := none,
      delay := c.delay,
      duration := c.duration,
      currentState := cur,
      originalState := cur,
      targetState := tgt,
      easing := composeEasingObject cur (c.easing.getD (EasingArg.str DEFAULT_EASING)),
      hookLog := t.hookLog ++ ["tweenCreated"],
      promise := Deferred.pending }

/-- What `tween()` returns: the source returns `this` from the
already-tweening early return and `this.resume()` (the promise)
otherwise. -/
inductive CallRet where
  | selfRet
  | promiseRet

/-- `tween(config)`: early-return `this` when `_isTweening`; otherwise
configure when a config is given or none was ever set (the source would
throw on `setConfig(undefined)`; `defaultConfig` models the documented
`[config={}]` intent), record `_timestamp = now`, fire the `start`
callback with the current state, and `resume()`. -/
def tween (now : ℚ) (cfg : Option Config) (w : World) (id : Nat) : World × CallRet :=
  let t := w.tweens id
  if t.isTweening then (w, CallRet.selfRet)
  else
    let w1 := if cfg.isSome || !t.configured then setConfig (cfg.getD defaultConfig) w id else w
    let t1 := w1.tweens id
    let w2 := updTween w1 id
      { t1 with timestamp := now, startLog := t1.startLog ++ [t1.currentState] }
    (resume now w2 id, CallRet.promiseRet)

/-- The loop body of `processQueue`: `for (let i = tweenQueue.length;
i > 0; i--)` reading `tweenQueue[i - 1]` of the current (possibly
mutated) queue, skipping entries whose `isPlaying()` is false.  An
out-of-range read (impossible when ticks only remove their own entry)
is modeled as a skip; in JS it would throw. -/
def processQueueLoop (now : ℚ) : World → Nat → World
  | w, 0 => w
  | w, i + 1 =>
    let w1 :=
      match w.queue[i]? with
      | none => w
      | some id => if isPlaying (w.tweens id) then processTween now w id else w
    processQueueLoop now w1 i

/-- `processQueue()`: capture `now` once, then walk the queue
back-to-front. -/
def processQueue (now : ℚ) (w : World) : World :=
  processQueueLoop now w w.queue.length

/-- Reference walk: process the given entries in order, all with one
shared `now`. -/
def tickAll (now : ℚ) (ids : List Nat) (w : World) : World :=
  ids.foldl (fun acc id => processTween now acc id) w

/-! ### Concrete instances used by witnesses and counterexamples -/

/-- A freshly constructed, unconfigured instance (undefined JS fields
take harmless defaults). -/
def tw0 : Tween :=
  { currentState := [], originalState := [], targetState := [], easing := [],
    delay := 0, duration := 500, timestamp := 0, isTweening := false,
    isPaused := false, pausedAtTime := none, configured := false,
    promise := Deferred.pending, stepLog := [], hookLog := [], startLog := [],
    tickLog := [] }

/-- A configured one-property tween `x : 2 → 10` over 100ms with a direct
identity easing function, currently playing. -/
def twLin : Tween :=
  { tw0 with
    currentState := [("x", 2)], originalState := [("x", 0)],
    targetState := [("x", 10)], easing := [("x", EasingSpec.fn fun p => p)],
    delay := 0, duration := 100, timestamp := 0, isTweening := true,
    configured := true }

/-- The identity-curve registry used by concrete worlds. -/
def idFormulas : String → ℚ → ℚ := fun _ p => p

/-! ### Basic lemmas about the embedding -/

theorem lookup_map_keyfun {α : Type} (s : St) (g : String → α) (k : String) :
    List.lookup k (s.map fun kv => (kv.1, g kv.1)) =
      (List.lookup k s).map fun _ => g k := by
  induction s with
  | nil => rfl
  | cons a t ih =>
    rcases a with ⟨k1, v1⟩
    simp only [List.map_cons, List.lookup_cons]
    cases hkk : (k == k1) with
    | true =>
      have hk1 : k = k1 := by simpa using hkk
      subst hk1
      simp
    | false => simp [hkk, ih]

theorem keysOf_map_keyfun {α : Type} (s : St) (g : String → α) :
    (s.map fun kv => (kv.1, g kv.1)).map Prod.fst = keysOf s := by
  simp [keysOf, List.map_map, Function.comp_def]

theorem lookup_isSome_of_mem_keysOf (s : St) (k : String) (h : k ∈ keysOf s) :
    (List.lookup k s).isSome := by
  induction s with
  | nil => simp [keysOf] at h
  | cons a t ih =>
    rcases a with ⟨k1, v1⟩
    simp only [keysOf, List.map_cons, List.mem_cons] at h
    simp only [List.lookup_cons]
    cases hkk : (k == k1) with
    | true => simp
    | false =>
      simp only []
      rcases h with h | h
      · subst h; simp at hkk
      · exact ih h

theorem lookupQ_tweenProps (forPosition : ℚ) (cur orig tgt : St)
    (duration timestamp : ℚ) (easing : EasingObj) (formulas : String → ℚ → ℚ)
    (k : String) (hk : k ∈ keysOf cur) :
    List.lookup k (tweenProps forPosition cur orig tgt duration timestamp easing formulas) =
      some (tweenPropsVal orig tgt easing formulas forPosition duration timestamp k) := by
  rw [tweenProps, lookup_map_keyfun]
  obtain ⟨v, hv⟩ := Option.isSome_iff_exists.mp (lookup_isSome_of_mem_keysOf cur k hk)
  simp [hv]

theorem normalizedPosition_one_one_one : normalizedPosition 1 1 1 = 0 := by
  simp [normalizedPosition]

theorem normalizedPosition_one_zero_one : normalizedPosition 1 0 1 = 1 := by
  norm_num [normalizedPosition]

theorem normalizedPosition_of_le (fp ts dur : ℚ) (h : ts ≤ fp) :
    normalizedPosition fp ts dur = (fp - ts) / dur := by
  simp [normalizedPosition, not_lt.mpr h]

@[simp] theorem updTween_queue (w : World) (id : Nat) (t : Tween) :
    (updTween w id t).queue = w.queue := rfl

@[simp] theorem updTween_formulas (w : World) (id : Nat) (t : Tween) :
    (updTween w id t).formulas = w.formulas := rfl

@[simp] theorem updTween_tweens_self (w : World) (id : Nat) (t : Tween) :
    (updTween w id t).tweens id = t := by
  simp [updTween]

theorem updTween_tweens_ne (w : World) (id j : Nat) (t : Tween) (h : j ≠ id) :
    (updTween w id t).tweens j = w.tweens j := by
  simp [updTween, h]

theorem findIdx?_beq_none (id : Nat) :
    ∀ (q : List Nat) (i : Nat), id ∉ q →
      List.findIdx? (fun j => j == id) q i = none := by
  intro q
  induction q with
  | nil => intro i _; rfl
  | cons a t ih =>
    intro i h
    simp only [List.mem_cons, not_or] at h
    rw [List.findIdx?_cons]
    have hbeq : (a == id) = false := by simp [Ne.symm h.1]
    rw [if_neg (by simp [hbeq])]
    exact ih (i + 1) h.2

theorem findIdx?_beq_append (id : Nat) :
    ∀ (A : List Nat) (B : List Nat) (i : Nat), id ∉ A →
      List.findIdx? (fun j => j == id) (A ++ id :: B) i = some (i + A.length) := by
  intro A
  induction A with
  | nil => intro B i _; simp [List.findIdx?_cons]
  | cons a t ih =>
    intro B i h
    simp only [List.mem_cons, not_or] at h
    have hbeq : (a == id) = false := by simp [Ne.symm h.1]
    rw [List.cons_append, List.findIdx?_cons, if_neg (by simp [hbeq]), ih B (i + 1) h.2]
    congr 1
    simp only [List.length_cons]
    omega

theorem jsSpliceRemove_not_mem (q : List Nat) (id : Nat) (h : id ∉ q) :
    jsSpliceRemove q id = q.dropLast := by
  simp [jsSpliceRemove, findIdx?_beq_none id q 0 h]

theorem jsSpliceRemove_append (A B : List Nat) (id : Nat) (h : id ∉ A) :
    jsSpliceRemove (A ++ id :: B) id = A ++ B := by
  rw [jsSpliceRemove, findIdx?_beq_append id A B 0 h]
  simp only [Nat.zero_add]
  rw [List.take_left' rfl]
  have : A ++ id :: B = (A ++ [id]) ++ B := by simp
  rw [this, List.drop_left' (by simp)]

theorem stop_queue (g : Bool) (w : World) (id : Nat) :
    (stop g w id).queue = jsSpliceRemove w.queue id := rfl

theorem stop_tweens_self (g : Bool) (w : World) (id : Nat) :
    (stop g w id).tweens id = stopTween w.formulas g (w.tweens id) := by
  show (updTween w id (stopTween w.formulas g (w.tweens id))).tweens id = _
  simp

theorem stop_tweens_ne (g : Bool) (w : World) (id j : Nat) (h : j ≠ id) :
    (stop g w id).tweens j = w.tweens j := by
  show (updTween w id (stopTween w.formulas g (w.tweens id))).tweens j = _
  exact updTween_tweens_ne w id j _ h

theorem lookup_cons_eq {β : Type} (k : String) (v : β) (l : List (String × β)) :
    List.lookup k ((k, v) :: l) = some v := by
  rw [List.lookup_cons]
  simp

theorem stopTween_currentState_true (fm : String → ℚ → ℚ) (t : Tween) :
    (stopTween fm true t).currentState =
      tweenProps 1 t.currentState t.originalState t.targetState 1 0 t.easing fm := rfl

theorem stopTween_promise_true (fm : String → ℚ → ℚ) (t : Tween)
    (hp : t.promise = Deferred.pending) :
    (stopTween fm true t).promise =
      Deferred.resolved ((stopTween fm true t).currentState) := by
  simp [stopTween, settleResolve, hp]

theorem stopTween_timestamp (fm : String → ℚ → ℚ) (g : Bool) (t : Tween) :
    (stopTween fm g t).timestamp = t.timestamp := by
  cases g <;> rfl

theorem stopTween_tickLog (fm : String → ℚ → ℚ) (g : Bool) (t : Tween) :
    (stopTween fm g t).tickLog = t.tickLog := by
  cases g <;> rfl

/-- When `now` has reached `endTime`, `processTween` fires the final
`step(targetState, offset = duration)` and delegates to `stop(true)`. -/
theorem processTween_ended (now : ℚ) (w : World) (id : Nat)
    (hE : (w.tweens id).timestamp + (w.tweens id).delay + (w.tweens id).duration ≤ now) :
    processTween now w id =
      stop true (updTween w id
        { w.tweens id with
          tickLog := (w.tweens id).tickLog ++ [now],
          stepLog := (w.tweens id).stepLog ++
            [((w.tweens id).targetState, (w.tweens id).duration)] }) id := by
  have hmin : min now
      ((w.tweens id).timestamp + (w.tweens id).delay + (w.tweens id).duration) =
      (w.tweens id).timestamp + (w.tweens id).delay + (w.tweens id).duration :=
    min_eq_right hE
  unfold processTween
  dsimp only
  rw [hmin, if_pos (le_refl _), sub_self, sub_zero]

/-- When `now` is still short of `endTime`, `processTween` performs the
regular step on the instance. -/
theorem processTween_not_ended (now : ℚ) (w : World) (id : Nat)
    (hE : now < (w.tweens id).timestamp + (w.tweens id).delay + (w.tweens id).duration) :
    processTween now w id =
      updTween w id (stepTween w.formulas now
        { w.tweens id with tickLog := (w.tweens id).tickLog ++ [now] }) := by
  have hmin : min now
      ((w.tweens id).timestamp + (w.tweens id).delay + (w.tweens id).duration) = now :=
    min_eq_left (le_of_lt hE)
  unfold processTween
  dsimp only
  rw [hmin, if_neg (not_le.mpr hE)]

theorem stepTween_currentState (fm : String → ℚ → ℚ) (now : ℚ) (t : Tween)
    (hE : now < t.timestamp + t.delay + t.duration) :
    (stepTween fm now t).currentState =
      if now < t.timestamp + t.delay then
        tweenProps 1 t.currentState t.originalState t.targetState 1 1 t.easing fm
      else
        tweenProps now t.currentState t.originalState t.targetState t.duration
          (t.timestamp + t.delay) t.easing fm := by
  have hmin : min now (t.timestamp + t.delay + t.duration) = now :=
    min_eq_left (le_of_lt hE)
  unfold stepTween
  dsimp only
  rw [hmin]

/-- The updated `currentState` of a not-yet-ended tick does not depend on
the instrumentation log, so it can be read off `stepTween` applied to the
stored instance itself. -/
theorem processTween_currentState_not_ended (now : ℚ) (w : World) (id : Nat)
    (hE : now < (w.tweens id).timestamp + (w.tweens id).delay + (w.tweens id).duration) :
    ((processTween now w id).tweens id).currentState =
      (stepTween w.formulas now (w.tweens id)).currentState := by
  rw [processTween_not_ended now w id hE]
  simp only [updTween_tweens_self]
  rfl

theorem processTween_timestamp_self (now : ℚ) (w : World) (id : Nat) :
    ((processTween now w id).tweens id).timestamp = (w.tweens id).timestamp := by
  rcases le_or_lt
      ((w.tweens id).timestamp + (w.tweens id).delay + (w.tweens id).duration) now with
    hE | hE
  · rw [processTween_ended now w id hE, stop_tweens_self]
    simp only [updTween_formulas, updTween_tweens_self]
    rw [stopTween_timestamp]
  · rw [processTween_not_ended now w id hE]
    simp only [updTween_tweens_self]
    rfl

theorem processTween_tickLog_self (now : ℚ) (w : World) (id : Nat) :
    ((processTween now w id).tweens id).tickLog = (w.tweens id).tickLog ++ [now] := by
  rcases le_or_lt
      ((w.tweens id).timestamp + (w.tweens id).delay + (w.tweens id).duration) now with
    hE | hE
  · rw [processTween_ended now w id hE, stop_tweens_self]
    simp only [updTween_formulas, updTween_tweens_self]
    rw [stopTween_tickLog]
  · rw [processTween_not_ended now w id hE]
    simp only [updTween_tweens_self]
    rfl

/-! ### C1 -/

/-- The instance effect of `stop(true)`: an exact landing on the target
plus resolution, given per-key curves with `f 1 = 1`. -/
theorem stopTween_final (fm : String → ℚ → ℚ) (t : Tween)
    (heas : ∀ k ∈ keysOf t.currentState,
      resolveEasing fm (lookupEasing t.easing k) 1 = 1)
    (hkeys : ∀ k ∈ keysOf t.currentState, (List.lookup k t.targetState).isSome)
    (hpend : t.promise = Deferred.pending) :
    (∀ k ∈ keysOf t.currentState,
      List.lookup k ((stopTween fm true t).currentState) =
        List.lookup k t.targetState) ∧
    (stopTween fm true t).promise =
      Deferred.resolved ((stopTween fm true t).currentState) := by
  constructor
  · intro k hk
    rw [stopTween_currentState_true,
      lookupQ_tweenProps 1 t.currentState t.originalState t.targetState 1 0 t.easing fm k hk]
    obtain ⟨v, hv⟩ := Option.isSome_iff_exists.mp (hkeys k hk)
    rw [hv]
    congr 1
    simp only [tweenPropsVal, tweenProp, normalizedPosition_one_zero_one, heas k hk,
      mul_one, lookupQ, hv, Option.getD_some]
    ring
  · exact stopTween_promise_true fm t hpend

/-- C1: with every per-key easing curve satisfying `f 1 = 1` and a
pending promise, driving the tween to completion — a `processTween` tick
with `now ≥ timestamp + delay + duration` (auto-stop), or an explicit
`stop(gotoEnd = true)` — overwrites `currentState` with `targetState` on
every tracked key and resolves the deferred result with exactly that
final state. -/
theorem claim1_completion_sets_target (w : World) (id : Nat)
    (heas : ∀ k ∈ keysOf ((w.tweens id).currentState),
      resolveEasing w.formulas (lookupEasing (w.tweens id).easing k) 1 = 1)
    (hkeys : ∀ k ∈ keysOf ((w.tweens id).currentState),
      (List.lookup k ((w.tweens id).targetState)).isSome)
    (hpend : (w.tweens id).promise = Deferred.pending) :
    (∀ now,
      (w.tweens id).timestamp + (w.tweens id).delay + (w.tweens id).duration ≤ now →
      (∀ k ∈ keysOf ((w.tweens id).currentState),
        List.lookup k (((processTween now w id).tweens id).currentState) =
          List.lookup k ((w.tweens id).targetState)) ∧
      ((processTween now w id).tweens id).promise =
        Deferred.resolved (((processTween now w id).tweens id).currentState)) ∧
    ((∀ k ∈ keysOf ((w.tweens id).currentState),
        List.lookup k (((stop true w id).tweens id).currentState) =
          List.lookup k ((w.tweens id).targetState)) ∧
      ((stop true w id).tweens id).promise =
        Deferred.resolved (((stop true w id).tweens id).currentState)) := by
  constructor
  · intro now hnow
    rw [processTween_ended now w id hnow, stop_tweens_self]
    simp only [updTween_formulas, updTween_tweens_self]
    exact stopTween_final w.formulas _ heas hkeys hpend
  · rw [stop_tweens_self]
    exact stopTween_final w.formulas (w.tweens id) heas hkeys hpend

def w1c : World := { queue := [0], tweens := fun _ => twLin, formulas := idFormulas }

/-- C1 witness: for the concrete playing tween `x : 2 → 10` with the
identity curve, both `stop(true)` and an ended tick at `now = 250` land
`x` on the target value and resolve the promise with the final state. -/
theorem claim1_witness :
    List.lookup "x" (((stop true w1c 0).tweens 0).currentState) =
      List.lookup "x" ((w1c.tweens 0).targetState) ∧
    ((stop true w1c 0).tweens 0).promise =
      Deferred.resolved (((stop true w1c 0).tweens 0).currentState) ∧
    List.lookup "x" (((processTween 250 w1c 0).tweens 0).currentState) =
      List.lookup "x" ((w1c.tweens 0).targetState) ∧
    ((processTween 250 w1c 0).tweens 0).promise =
      Deferred.resolved (((processTween 250 w1c 0).tweens 0).currentState) := by
  have heas : ∀ k ∈ keysOf ((w1c.tweens 0).currentState),
      resolveEasing w1c.formulas (lookupEasing (w1c.tweens 0).easing k) 1 = 1 := by
    intro k hk
    simp only [w1c, twLin, tw0, keysOf, List.map_cons, List.map_nil, List.mem_cons,
      List.not_mem_nil, or_false] at hk
    subst hk
    simp [w1c, twLin, tw0, lookupEasing, resolveEasing, lookup_cons_eq]
  have hkeys : ∀ k ∈ keysOf ((w1c.tweens 0).currentState),
      (List.lookup k ((w1c.tweens 0).targetState)).isSome := by
    intro k hk
    simp only [w1c, twLin, tw0, keysOf, List.map_cons, List.map_nil, List.mem_cons,
      List.not_mem_nil, or_false] at hk
    subst hk
    simp [w1c, twLin, tw0, lookup_cons_eq]
  have hmem : "x" ∈ keysOf ((w1c.tweens 0).currentState) := by
    simp [w1c, twLin, tw0, keysOf]
  have hend : (w1c.tweens 0).timestamp + (w1c.tweens 0).delay +
      (w1c.tweens 0).duration ≤ 250 := by
    norm_num [w1c, twLin, tw0]
  exact ⟨(claim1_completion_sets_target w1c 0 heas hkeys rfl).2.1 "x" hmem,
    (claim1_completion_sets_target w1c 0 heas hkeys rfl).2.2,
    ((claim1_completion_sets_target w1c 0 heas hkeys rfl).1 250 hend).1 "x" hmem,
    ((claim1_completion_sets_target w1c 0 heas hkeys rfl).1 250 hend).2⟩

/-! ### C2 -/

/-- C2 (amended): during a not-yet-ended tick, while `now` has not
reached `timestamp + delay` the interpolation pass runs at position 0 —
so each key becomes `tweenProp(original, target, f, 0)`, which equals
the original value exactly when that key's curve satisfies `f 0 = 0`;
once `now` has reached `timestamp + delay`, the tick interpolates at
position `(now - (timestamp + delay)) / duration`, the delay having been
folded into a per-call local copy of the timestamp: the stored
`timestamp` field itself is never advanced. -/
theorem claim2_delay_window_and_position (w : World) (id : Nat) (now : ℚ)
    (hnotend : now <
      (w.tweens id).timestamp + (w.tweens id).delay + (w.tweens id).duration) :
    (now < (w.tweens id).timestamp + (w.tweens id).delay →
      ∀ k ∈ keysOf ((w.tweens id).currentState),
        List.lookup k (((processTween now w id).tweens id).currentState) =
          some (tweenProp (lookupQ (w.tweens id).originalState k)
            (lookupQ (w.tweens id).targetState k)
            (resolveEasing w.formulas (lookupEasing (w.tweens id).easing k)) 0) ∧
        (resolveEasing w.formulas (lookupEasing (w.tweens id).easing k) 0 = 0 →
          List.lookup k (((processTween now w id).tweens id).currentState) =
            some (lookupQ (w.tweens id).originalState k))) ∧
    ((w.tweens id).timestamp + (w.tweens id).delay ≤ now →
      (∀ k ∈ keysOf ((w.tweens id).currentState),
        List.lookup k (((processTween now w id).tweens id).currentState) =
          some (tweenProp (lookupQ (w.tweens id).originalState k)
            (lookupQ (w.tweens id).targetState k)
            (resolveEasing w.formulas (lookupEasing (w.tweens id).easing k))
            ((now - ((w.tweens id).timestamp + (w.tweens id).delay)) /
              (w.tweens id).duration))) ∧
      ((processTween now w id).tweens id).timestamp = (w.tweens id).timestamp) := by
  have hcsb := processTween_currentState_not_ended now w id hnotend
  constructor
  · intro hlt k hk
    rw [hcsb, stepTween_currentState w.formulas now (w.tweens id) hnotend, if_pos hlt,
      lookupQ_tweenProps 1 _ _ _ 1 1 _ _ k hk]
    constructor
    · congr 1
      simp only [tweenPropsVal, normalizedPosition_one_one_one]
    · intro hf0
      congr 1
      simp only [tweenPropsVal, normalizedPosition_one_one_one, tweenProp, hf0,
        mul_zero, add_zero]
  · intro hge
    constructor
    · intro k hk
      rw [hcsb, stepTween_currentState w.formulas now (w.tweens id) hnotend,
        if_neg (not_lt.mpr hge), lookupQ_tweenProps now _ _ _ _ _ _ _ k hk]
      congr 1
      simp only [tweenPropsVal]
      rw [normalizedPosition_of_le now _ _ hge]
    · rw [processTween_timestamp_self]

def tw2c : Tween :=
  { tw0 with
    currentState := [("x", 0)], originalState := [("x", 0)],
    targetState := [("x", 10)], easing := [("x", EasingSpec.fn fun _ => 1)],
    delay := 100, duration := 100, timestamp := 0, isTweening := true,
    configured := true }

def w2c : World := { queue := [0], tweens := fun _ => tw2c, formulas := idFormulas }

/-- C2 counterexample: with the (legal) direct easing function
`f = const 1`, a tick inside the delay window leaves `x = 10`, not the
original `0` — the claim's "currentState equals originalState exactly"
fails; moreover after a post-delay tick at `now = 150` the stored
timestamp is still `0`: it was never advanced by the 100ms delay. -/
theorem claim2_counterexample :
    (50 : ℚ) < (w2c.tweens 0).timestamp + (w2c.tweens 0).delay ∧
    (50 : ℚ) < (w2c.tweens 0).timestamp + (w2c.tweens 0).delay +
      (w2c.tweens 0).duration ∧
    List.lookup "x" (((processTween 50 w2c 0).tweens 0).currentState) = some 10 ∧
    List.lookup "x" ((w2c.tweens 0).originalState) = some 0 ∧
    (10 : ℚ) ≠ 0 ∧
    (w2c.tweens 0).timestamp + (w2c.tweens 0).delay ≤ 150 ∧
    (150 : ℚ) < (w2c.tweens 0).timestamp + (w2c.tweens 0).delay +
      (w2c.tweens 0).duration ∧
    ((processTween 150 w2c 0).tweens 0).timestamp = 0 ∧
    (0 : ℚ) ≠ (w2c.tweens 0).timestamp + (w2c.tweens 0).delay := by
  have hnotend : (50 : ℚ) < (w2c.tweens 0).timestamp + (w2c.tweens 0).delay +
      (w2c.tweens 0).duration := by
    norm_num [w2c, tw2c, tw0]
  have hlt : (50 : ℚ) < (w2c.tweens 0).timestamp + (w2c.tweens 0).delay := by
    norm_num [w2c, tw2c, tw0]
  have hk : "x" ∈ keysOf ((w2c.tweens 0).currentState) := by
    simp [w2c, tw2c, tw0, keysOf]
  have hlook : List.lookup "x" (((processTween 50 w2c 0).tweens 0).currentState) =
      some 10 := by
    rw [processTween_currentState_not_ended 50 w2c 0 hnotend,
      stepTween_currentState w2c.formulas 50 (w2c.tweens 0) hnotend, if_pos hlt,
      lookupQ_tweenProps 1 _ _ _ 1 1 _ _ "x" hk]
    congr 1
    norm_num [w2c, tw2c, tw0, tweenPropsVal, tweenProp, lookupQ, lookupEasing,
      resolveEasing, normalizedPosition, lookup_cons_eq]
  have hts : ((processTween 150 w2c 0).tweens 0).timestamp = 0 := by
    rw [processTween_timestamp_self]
    simp [w2c, tw2c, tw0]
  refine ⟨hlt, hnotend, hlook, by simp [w2c, tw2c, tw0, lookup_cons_eq], by norm_num,
    by norm_num [w2c, tw2c, tw0], by norm_num [w2c, tw2c, tw0], hts,
    by norm_num [w2c, tw2c, tw0]⟩

def tw2w : Tween :=
  { tw0 with
    currentState := [("x", 5)], originalState := [("x", 0)],
    targetState := [("x", 10)], easing := [("x", EasingSpec.fn fun p => p)],
    delay := 100, duration := 100, timestamp := 0, isTweening := true,
    configured := true }

def w2w : World := { queue := [0], tweens := fun _ => tw2w, formulas := idFormulas }

/-- C2 witness: for a delayed identity-easing tween, a tick at `now = 50`
(inside the 100ms delay window) reproduces the original value of `x`, and
a tick at `now = 150` interpolates at `(150 - 100) / 100` while leaving
the stored timestamp untouched. -/
theorem claim2_witness :
    List.lookup "x" (((processTween 50 w2w 0).tweens 0).currentState) =
      some (lookupQ ((w2w.tweens 0).originalState) "x") ∧
    List.lookup "x" (((processTween 150 w2w 0).tweens 0).currentState) =
      some (tweenProp (lookupQ (w2w.tweens 0).originalState "x")
        (lookupQ (w2w.tweens 0).targetState "x")
        (resolveEasing w2w.formulas (lookupEasing (w2w.tweens 0).easing "x"))
        ((150 - ((w2w.tweens 0).timestamp + (w2w.tweens 0).delay)) /
          (w2w.tweens 0).duration)) ∧
    ((processTween 150 w2w 0).tweens 0).timestamp = (w2w.tweens 0).timestamp := by
  have hne50 : (50 : ℚ) < (w2w.tweens 0).timestamp + (w2w.tweens 0).delay +
      (w2w.tweens 0).duration := by
    norm_num [w2w, tw2w, tw0]
  have hlt50 : (50 : ℚ) < (w2w.tweens 0).timestamp + (w2w.tweens 0).delay := by
    norm_num [w2w, tw2w, tw0]
  have hne150 : (150 : ℚ) < (w2w.tweens 0).timestamp + (w2w.tweens 0).delay +
      (w2w.tweens 0).duration := by
    norm_num [w2w, tw2w, tw0]
  have hge150 : (w2w.tweens 0).timestamp + (w2w.tweens 0).delay ≤ 150 := by
    norm_num [w2w, tw2w, tw0]
  have hmem : "x" ∈ keysOf ((w2w.tweens 0).currentState) := by
    simp [w2w, tw2w, tw0, keysOf]
  have hf0 : resolveEasing w2w.formulas (lookupEasing (w2w.tweens 0).easing "x") 0 = 0 := by
    simp [w2w, tw2w, tw0, lookupEasing, resolveEasing, lookup_cons_eq]
  exact ⟨((claim2_delay_window_and_position w2w 0 50 hne50).1 hlt50 "x" hmem).2 hf0,
    ((claim2_delay_window_and_position w2w 0 150 hne150).2 hge150).1 "x" hmem,
    ((claim2_delay_window_and_position w2w 0 150 hne150).2 hge150).2⟩

/-! ### C7 -/

/-- C7: `tweenProp(start, end, f, position)` equals
`start + (end - start) * f(position)` for every position (positions
outside `[0, 1]` included, no clamping); consequently it returns `start`
at position 0 when `f 0 = 0` and `end` at position 1 when `f 1 = 1`. -/
theorem claim7_tweenProp_formula (start end_ : ℚ) (f : ℚ → ℚ) (position : ℚ) :
    tweenProp start end_ f position = start + (end_ - start) * f position ∧
    (f 0 = 0 → tweenProp start end_ f 0 = start) ∧
    (f 1 = 1 → tweenProp start end_ f 1 = end_) := by
  refine ⟨rfl, fun h => ?_, fun h => ?_⟩ <;> simp [tweenProp, h]

/-- C7 witness: the identity curve satisfies both endpoint contracts, and
`tweenProp 3 7` maps position 0 to 3 and position 1 to 7. -/
theorem claim7_witness :
    ((fun p : ℚ => p) 0 = 0) ∧ tweenProp 3 7 (fun p : ℚ => p) 0 = 3 ∧
    ((fun p : ℚ => p) 1 = 1) ∧ tweenProp 3 7 (fun p : ℚ => p) 1 = 7 :=
  ⟨rfl, (claim7_tweenProp_formula 3 7 (fun p => p) 0).2.1 rfl, rfl,
    (claim7_tweenProp_formula 3 7 (fun p => p) 0).2.2 rfl⟩

/-! ### C8 -/

/-- C8 (amended): `composeEasingObject` returns a mapping with exactly
the keys of the given state object; a single string or a single function
is assigned to every key; for a partial mapping, each key is mapped to
that mapping's entry when the entry is present and truthy (a function,
or a non-empty curve name), and to the default `"linear"` otherwise. -/
theorem claim8_composeEasingObject (s : St) (k nm : String) (f : ℚ → ℚ) (m : EasingObj) :
    (composeEasingObject s (EasingArg.str nm)).map Prod.fst = keysOf s ∧
    (composeEasingObject s (EasingArg.func f)).map Prod.fst = keysOf s ∧
    (composeEasingObject s (EasingArg.obj m)).map Prod.fst = keysOf s ∧
    List.lookup k (composeEasingObject s (EasingArg.str nm)) =
      (List.lookup k s).map (fun _ => EasingSpec.name nm) ∧
    List.lookup k (composeEasingObject s (EasingArg.func f)) =
      (List.lookup k s).map (fun _ => EasingSpec.fn f) ∧
    List.lookup k (composeEasingObject s (EasingArg.obj m)) =
      (List.lookup k s).map (fun _ => composeEntry m k) :=
  ⟨keysOf_map_keyfun s (fun _ => EasingSpec.name nm),
    keysOf_map_keyfun s (fun _ => EasingSpec.fn f),
    keysOf_map_keyfun s (composeEntry m),
    lookup_map_keyfun s (fun _ => EasingSpec.name nm) k,
    lookup_map_keyfun s (fun _ => EasingSpec.fn f) k,
    lookup_map_keyfun s (composeEntry m) k⟩

/-- C8 counterexample: with the partial mapping `{ x: "" }` the entry
for `x` is present, yet the claim's "mapped to that mapping's entry when
present" fails: the falsy empty-string name is replaced by the default
`"linear"`. -/
theorem claim8_counterexample :
    List.lookup "x"
        (composeEasingObject [("x", 0)] (EasingArg.obj [("x", EasingSpec.name "")])) =
      some (EasingSpec.name "linear") ∧
    EasingSpec.name "linear" ≠ EasingSpec.name "" := by
  refine ⟨rfl, ?_⟩
  simp only [ne_eq, EasingSpec.name.injEq]
  decide

/-! ### C10 -/

/-- C10: `stop()` on an instance that is not in the run queue computes
`indexOf = -1` and `splice(-1, 1)`, which deletes the LAST element of the
queue (the least recently enqueued one, since entries are unshifted at
the front) instead of leaving the queue unchanged: the queue becomes
`dropLast` of itself, a strict change whenever it is nonempty. -/
theorem claim10_stop_absent_drops_last (w : World) (id : Nat) (g : Bool)
    (h : id ∉ w.queue) :
    (stop g w id).queue = w.queue.dropLast ∧
    (w.queue ≠ [] → (stop g w id).queue ≠ w.queue) := by
  have hq : (stop g w id).queue = w.queue.dropLast := by
    rw [stop_queue]
    exact jsSpliceRemove_not_mem w.queue id h
  refine ⟨hq, fun hne => ?_⟩
  rw [hq]
  intro hcontra
  have hlen := congrArg List.length hcontra
  rw [List.length_dropLast] at hlen
  have hpos : 0 < w.queue.length := List.length_pos.mpr hne
  omega

def w10c : World := { queue := [5], tweens := fun _ => twLin, formulas := idFormulas }

/-- C10 witness: stopping the never-enqueued instance 0 while the queue
holds only instance 5 empties the queue. -/
theorem claim10_witness :
    (0 : Nat) ∉ w10c.queue ∧ w10c.queue ≠ [] ∧
    (stop false w10c 0).queue = w10c.queue.dropLast ∧
    (stop false w10c 0).queue ≠ w10c.queue :=
  ⟨by decide, by decide,
    (claim10_stop_absent_drops_last w10c 0 false (by decide)).1,
    (claim10_stop_absent_drops_last w10c 0 false (by decide)).2 (by decide)⟩

/-! ### C4 -/

def w4c : World := { queue := [0], tweens := fun _ => twLin, formulas := idFormulas }

/-- C4: evaluating `tween()` on an already-playing instance
(`_isTweening` set): the call performs no reconfiguration, no re-queuing
and no state change at all, but it returns the instance itself
(`return this`), not the existing deferred-result promise — contradicting
the method's own `@return {external:Promise}` documentation. -/
theorem claim4_double_tween_returns_self :
    (w4c.tweens 0).isTweening = true ∧
    tween 0 none w4c 0 = (w4c, CallRet.selfRet) ∧
    CallRet.selfRet ≠ CallRet.promiseRet :=
  ⟨rfl, rfl, fun h => CallRet.noConfusion h⟩

/-! ### C3 -/

def w3c : World := { queue := [0], tweens := fun _ => twLin, formulas := idFormulas }

/-- C3: evaluation at the failing input: on a playing, already-queued
instance, `pause()` followed by `resume()` leaves the instance in the
run queue twice, because `resume()` unshifts unconditionally — violating
the exactly-once queue-membership invariant while the tween is still
started, un-stopped and playing.  A subsequent `stop()` removes only the
first occurrence, leaving a stale entry behind. -/
theorem claim3_pause_resume_duplicates :
    isPlaying (w3c.tweens 0) = true ∧
    (resume 40 (pause 30 w3c 0) 0).queue = [0, 0] ∧
    isPlaying ((resume 40 (pause 30 w3c 0) 0).tweens 0) = true ∧
    (stop false (resume 40 (pause 30 w3c 0) 0) 0).queue = [0] :=
  ⟨rfl, rfl, rfl, rfl⟩

/-! ### C5 -/

theorem pause_tweens_self (now : ℚ) (w : World) (id : Nat) :
    (pause now w id).tweens id =
      { w.tweens id with pausedAtTime := some now, isPaused := true } := by
  simp [pause]

/-- Past the guard, a seek of a playing tween only reassigns the
timestamp. -/
theorem seek_eq_playing (now ms : ℚ) (w : World) (id : Nat)
    (h : ¬((w.tweens id).timestamp + max ms 0 = 0))
    (hp : isPlaying (w.tweens id) = true) :
    seek now ms w id =
      updTween w id { w.tweens id with timestamp := now - max ms 0 } := by
  have hp2 : isPlaying ({ w.tweens id with timestamp := now - max ms 0 } : Tween)
      = true := hp
  simp only [seek]
  rw [if_neg h]
  simp only [updTween_tweens_self]
  rw [if_pos hp2]

/-- Past the guard, a seek of a non-playing tween reassigns the
timestamp, forces the playing flags, runs one synchronous tick at the
captured time, and pauses. -/
theorem seek_eq_not_playing (now ms : ℚ) (w : World) (id : Nat)
    (h : ¬((w.tweens id).timestamp + max ms 0 = 0))
    (hp : isPlaying (w.tweens id) = false) :
    seek now ms w id =
      pause now (processTween now
        (updTween (updTween w id { w.tweens id with timestamp := now - max ms 0 }) id
          { w.tweens id with
            timestamp := now - max ms 0,
            isTweening := true, isPaused := false }) id) id := by
  have hp2 : isPlaying ({ w.tweens id with timestamp := now - max ms 0 } : Tween)
      = false := hp
  simp only [seek]
  rw [if_neg h]
  simp only [updTween_tweens_self]
  rw [if_neg (by rw [hp2]; exact Bool.false_ne_true)]

/-- C5 (amended): `seek(ms)` clamps a negative `ms` to 0; it returns
early, with no effect at all, exactly when `timestamp + ms == 0` (the
source guard — not when the resulting timestamp would be unchanged);
otherwise it sets `timestamp = now - ms` and, when the tween is not
playing, additionally runs one synchronous tick at `now` (recorded in
the tick log, with hooks and the step callback firing) and then
re-pauses, leaving `isPlaying()` false. -/
theorem claim5_seek_behavior (w : World) (id : Nat) (now ms : ℚ) :
    seek now ms w id = seek now (max ms 0) w id ∧
    ((w.tweens id).timestamp + max ms 0 = 0 → seek now ms w id = w) ∧
    ((w.tweens id).timestamp + max ms 0 ≠ 0 →
      ((seek now ms w id).tweens id).timestamp = now - max ms 0 ∧
      (isPlaying (w.tweens id) = false →
        isPlaying ((seek now ms w id).tweens id) = false ∧
        ((seek now ms w id).tweens id).isPaused = true ∧
        ((seek now ms w id).tweens id).tickLog =
          (w.tweens id).tickLog ++ [now])) := by
  refine ⟨?_, fun h => ?_, fun h => ?_⟩
  · have hmax : max (max ms 0) 0 = max ms 0 := max_eq_left (le_max_right ms 0)
    simp only [seek, hmax]
  · simp only [seek]
    rw [if_pos h]
  · cases hp : isPlaying (w.tweens id) with
    | true =>
      rw [seek_eq_playing now ms w id h hp]
      refine ⟨by rw [updTween_tweens_self], fun hpf => ?_⟩
      exact absurd hpf (by simp)
    | false =>
      rw [seek_eq_not_playing now ms w id h hp]
      refine ⟨?_, fun _ => ⟨?_, ?_, ?_⟩⟩
      · rw [pause_tweens_self]
        dsimp only
        rw [processTween_timestamp_self]
        simp only [updTween_tweens_self]
      · simp [isPlaying, pause_tweens_self]
      · rw [pause_tweens_self]
      · rw [pause_tweens_self]
        dsimp only
        rw [processTween_tickLog_self]
        simp only [updTween_tweens_self]

def tw5n : Tween := { twLin with isTweening := false, timestamp := 0 }

def w5n : World := { queue := [], tweens := fun _ => tw5n, formulas := idFormulas }

/-- C5 counterexample: the source guard is `timestamp + ms === 0`, not
"the resulting timestamp would be unchanged": with stored timestamp 0, a
`seek(0)` at `now = 100` is a complete no-op even though the resulting
timestamp `now - ms = 100` differs from the current one, so the claim
requires the seek to take effect. -/
theorem claim5_counterexample :
    seek 100 0 w5n 0 = w5n ∧
    ((seek 100 0 w5n 0).tweens 0).timestamp = 0 ∧ (0 : ℚ) ≠ 100 - 0 := by
  have hguard : (w5n.tweens 0).timestamp + max (0 : ℚ) 0 = 0 := by
    norm_num [w5n, tw5n, twLin, tw0]
  have hseek : seek 100 0 w5n 0 = w5n := by
    simp only [seek]
    rw [if_pos hguard]
  exact ⟨hseek, by rw [hseek]; norm_num [w5n, tw5n, twLin, tw0], by norm_num⟩

def tw5w : Tween := { twLin with isTweening := false, timestamp := 50 }

def w5w : World := { queue := [], tweens := fun _ => tw5w, formulas := idFormulas }

/-- C5 witness: seeking a non-playing tween by a negative amount clamps
to 0, reassigns the timestamp to `now`, ticks once at `now`, and leaves
the tween paused and not playing. -/
theorem claim5_witness :
    (w5w.tweens 0).timestamp + max (-5 : ℚ) 0 ≠ 0 ∧
    isPlaying (w5w.tweens 0) = false ∧
    seek 100 (-5) w5w 0 = seek 100 (max (-5 : ℚ) 0) w5w 0 ∧
    ((seek 100 (-5) w5w 0).tweens 0).timestamp = 100 - max (-5 : ℚ) 0 ∧
    isPlaying ((seek 100 (-5) w5w 0).tweens 0) = false ∧
    ((seek 100 (-5) w5w 0).tweens 0).isPaused = true ∧
    ((seek 100 (-5) w5w 0).tweens 0).tickLog =
      (w5w.tweens 0).tickLog ++ [100] := by
  have hne : (w5w.tweens 0).timestamp + max (-5 : ℚ) 0 ≠ 0 := by
    norm_num [w5w, tw5w, twLin, tw0]
  have hnp : isPlaying (w5w.tweens 0) = false := by
    simp [w5w, tw5w, twLin, tw0, isPlaying]
  exact ⟨hne, hnp, (claim5_seek_behavior w5w 0 100 (-5)).1,
    ((claim5_seek_behavior w5w 0 100 (-5)).2.2 hne).1,
    (((claim5_seek_behavior w5w 0 100 (-5)).2.2 hne).2 hnp).1,
    (((claim5_seek_behavior w5w 0 100 (-5)).2.2 hne).2 hnp).2.1,
    (((claim5_seek_behavior w5w 0 100 (-5)).2.2 hne).2 hnp).2.2⟩

/-! ### C6 -/

theorem normalizedPosition_shift (fp ts dur delta : ℚ) :
    normalizedPosition fp (ts + delta) dur =
      normalizedPosition (fp - delta) ts dur := by
  unfold normalizedPosition
  rcases lt_or_le fp (ts + delta) with h | h
  · rw [if_pos h, if_pos (by linarith)]
  · rw [if_neg (not_lt.mpr h), if_neg (not_lt.mpr (by linarith))]
    congr 1
    ring

theorem tweenPropsVal_shift (orig tgt : St) (eas : EasingObj)
    (fm : String → ℚ → ℚ) (fp dur ts delta : ℚ) (k : String) :
    tweenPropsVal orig tgt eas fm fp dur (ts + delta) k =
      tweenPropsVal orig tgt eas fm (fp - delta) dur ts k := by
  unfold tweenPropsVal
  rw [normalizedPosition_shift]

theorem tweenProps_shift (fp : ℚ) (cur orig tgt : St) (dur ts delta : ℚ)
    (eas : EasingObj) (fm : String → ℚ → ℚ) :
    tweenProps fp cur orig tgt dur (ts + delta) eas fm =
      tweenProps (fp - delta) cur orig tgt dur ts eas fm := by
  unfold tweenProps
  apply List.map_congr_left
  intro kv _
  rw [tweenPropsVal_shift]

/-- Shifting both `now` and the stored timestamp by the same amount
leaves the state computed by a tick unchanged: `processTween` reads the
clock only through `now - timestamp` differences. -/
theorem processTween_currentState_shift (now delta : ℚ) (w1 w2 : World) (id : Nat)
    (hfm : w1.formulas = w2.formulas)
    (hcur : (w1.tweens id).currentState = (w2.tweens id).currentState)
    (horig : (w1.tweens id).originalState = (w2.tweens id).originalState)
    (htgt : (w1.tweens id).targetState = (w2.tweens id).targetState)
    (heas : (w1.tweens id).easing = (w2.tweens id).easing)
    (hdel : (w1.tweens id).delay = (w2.tweens id).delay)
    (hdur : (w1.tweens id).duration = (w2.tweens id).duration)
    (hts : (w1.tweens id).timestamp = (w2.tweens id).timestamp + delta) :
    ((processTween now w1 id).tweens id).currentState =
      ((processTween (now - delta) w2 id).tweens id).currentState := by
  rcases le_or_lt ((w1.tweens id).timestamp + (w1.tweens id).delay +
      (w1.tweens id).duration) now with hE | hE
  · have hE2 : (w2.tweens id).timestamp + (w2.tweens id).delay +
        (w2.tweens id).duration ≤ now - delta := by
      rw [hts, hdel, hdur] at hE
      linarith
    rw [processTween_ended now w1 id hE, processTween_ended (now - delta) w2 id hE2,
      stop_tweens_self, stop_tweens_self]
    simp only [updTween_formulas, updTween_tweens_self]
    rw [stopTween_currentState_true, stopTween_currentState_true]
    dsimp only
    rw [hcur, horig, htgt, heas, hfm]
  · have hE2 : now - delta < (w2.tweens id).timestamp + (w2.tweens id).delay +
        (w2.tweens id).duration := by
      rw [hts, hdel, hdur] at hE
      linarith
    rw [processTween_currentState_not_ended now w1 id hE,
      processTween_currentState_not_ended (now - delta) w2 id hE2,
      stepTween_currentState w1.formulas now (w1.tweens id) hE,
      stepTween_currentState w2.formulas (now - delta) (w2.tweens id) hE2]
    rcases lt_or_le (now - delta)
        ((w2.tweens id).timestamp + (w2.tweens id).delay) with h2 | h2
    · have h1 : now < (w1.tweens id).timestamp + (w1.tweens id).delay := by
        rw [hts, hdel]
        linarith
      rw [if_pos h1, if_pos h2, hcur, horig, htgt, heas, hfm]
    · have h1 : ¬(now < (w1.tweens id).timestamp + (w1.tweens id).delay) := by
        rw [hts, hdel]
        intro hc
        linarith
      rw [if_neg h1, if_neg (not_lt.mpr h2)]
      have htsd : (w1.tweens id).timestamp + (w1.tweens id).delay =
          ((w2.tweens id).timestamp + (w2.tweens id).delay) + delta := by
        rw [hts, hdel]
        ring
      rw [hcur, horig, htgt, heas, hdur, hfm, htsd, tweenProps_shift]

/-- C6: pausing at `t_p` and resuming at `t_p + Δ` shifts the stored
timestamp forward by exactly `Δ`, and every subsequent tick at `now`
computes the same `currentState` as ticking the never-paused tween at
`now - Δ`. -/
theorem claim6_pause_resume_time_shift (w : World) (id : Nat) (tp delta now : ℚ) :
    ((resume (tp + delta) (pause tp w id) id).tweens id).timestamp =
      (w.tweens id).timestamp + delta ∧
    ((processTween now (resume (tp + delta) (pause tp w id) id) id).tweens id).currentState =
      ((processTween (now - delta) w id).tweens id).currentState := by
  have hres : (resume (tp + delta) (pause tp w id) id).tweens id =
      { w.tweens id with
        timestamp := (w.tweens id).timestamp + (tp + delta - tp),
        pausedAtTime := some tp, isPaused := false, isTweening := true } := by
    simp [resume, pause, updTween_tweens_self, Option.getD_some]
  constructor
  · rw [hres]
    dsimp only
    ring
  · refine processTween_currentState_shift now delta _ w id rfl ?_ ?_ ?_ ?_ ?_ ?_ ?_
    · rw [hres]
    · rw [hres]
    · rw [hres]
    · rw [hres]
    · rw [hres]
    · rw [hres]
    · rw [hres]
      dsimp only
      ring

/-! ### C9 -/

theorem processTween_tweens_ne (now : ℚ) (w : World) (id j : Nat) (h : j ≠ id) :
    (processTween now w id).tweens j = w.tweens j := by
  rcases le_or_lt ((w.tweens id).timestamp + (w.tweens id).delay +
      (w.tweens id).duration) now with hE | hE
  · rw [processTween_ended now w id hE, stop_tweens_ne _ _ _ _ h,
      updTween_tweens_ne _ _ _ _ h]
  · rw [processTween_not_ended now w id hE, updTween_tweens_ne _ _ _ _ h]

/-- A tick can change the queue only by removing the ticked instance's
own (first) entry. -/
theorem processTween_queue_cases (now : ℚ) (w : World) (id : Nat) (A B : List Nat)
    (hq : w.queue = A ++ id :: B) (hA : id ∉ A) :
    (processTween now w id).queue = A ++ id :: B ∨
      (processTween now w id).queue = A ++ B := by
  rcases le_or_lt ((w.tweens id).timestamp + (w.tweens id).delay +
      (w.tweens id).duration) now with hE | hE
  · right
    rw [processTween_ended now w id hE, stop_queue, updTween_queue, hq]
    exact jsSpliceRemove_append A B id hA
  · left
    rw [processTween_not_ended now w id hE, updTween_queue, hq]

theorem tickAll_cons (now : ℚ) (a : Nat) (ids : List Nat) (w : World) :
    tickAll now (a :: ids) w = tickAll now ids (processTween now w a) := rfl

theorem tickAll_tweens_not_mem (now : ℚ) (ids : List Nat) (w : World) (j : Nat)
    (h : j ∉ ids) :
    (tickAll now ids w).tweens j = w.tweens j := by
  induction ids generalizing w with
  | nil => rfl
  | cons a t ih =>
    simp only [List.mem_cons, not_or] at h
    rw [tickAll_cons, ih _ h.2, processTween_tweens_ne now w a j h.1]

/-- Over a duplicate-free batch, each listed instance is ticked exactly
once with the shared `now`, and unlisted instances are not ticked. -/
theorem tickAll_tickLog (now : ℚ) (ids : List Nat) (w : World) (j : Nat)
    (hnd : ids.Nodup) :
    ((tickAll now ids w).tweens j).tickLog =
      (w.tweens j).tickLog ++ (if j ∈ ids then [now] else []) := by
  induction ids generalizing w with
  | nil => simp [tickAll]
  | cons a t ih =>
    rw [tickAll_cons]
    rcases List.nodup_cons.mp hnd with ⟨hna, hnt⟩
    by_cases hj : j = a
    · subst hj
      rw [tickAll_tweens_not_mem now t _ j hna, processTween_tickLog_self]
      simp
    · rw [ih _ hnt, processTween_tweens_ne now w a j hj]
      simp [hj]

/-- The index-based back-to-front walk over the first `i` entries of the
live queue equals the straight fold over the snapshot of those entries
that are playing at entry to the walk. -/
theorem processQueueLoop_eq_tickAll (now : ℚ) :
    ∀ (i : Nat) (w : World), i ≤ w.queue.length → (w.queue.take i).Nodup →
      processQueueLoop now w i =
        tickAll now ((w.queue.take i).reverse.filter
          (fun id => isPlaying (w.tweens id))) w := by
  intro i
  induction i with
  | zero =>
    intro w _ _
    simp [processQueueLoop, tickAll]
  | succ i ih =>
    intro w hlen hnd
    have hi : i < w.queue.length := Nat.lt_of_lt_of_le (Nat.lt_succ_self i) hlen
    have hget : w.queue[i]? = some w.queue[i] := List.getElem?_eq_getElem hi
    have htake : w.queue.take (i + 1) = w.queue.take i ++ [w.queue[i]] := by
      rw [List.take_succ, hget]
      rfl
    have hndtake : (w.queue.take i).Nodup := by
      have hsub : w.queue.take i = (w.queue.take (i + 1)).take i := by
        rw [List.take_take]
        congr 1
        omega
      rw [hsub]
      exact (List.take_sublist i _).nodup hnd
    have hnotmem : w.queue[i] ∉ w.queue.take i := by
      rw [htake] at hnd
      intro hmem
      rcases List.nodup_append.mp hnd with ⟨_, _, hdisj⟩
      exact hdisj hmem (List.mem_singleton_self _)
    simp only [processQueueLoop, hget]
    cases hplay : isPlaying (w.tweens (w.queue[i])) with
    | false =>
      rw [if_neg Bool.false_ne_true]
      rw [ih w (le_of_lt hi) hndtake]
      rw [htake]
      simp only [List.reverse_append, List.reverse_cons, List.reverse_nil,
        List.nil_append, List.singleton_append]
      rw [List.filter_cons, if_neg (by rw [hplay]; exact Bool.false_ne_true)]
    | true =>
      rw [if_pos rfl]
      have hqdec := (List.take_append_drop i w.queue).symm
      rw [List.drop_eq_getElem_cons hi] at hqdec
      have hcases := processTween_queue_cases now w (w.queue[i]) (w.queue.take i)
        (w.queue.drop (i + 1)) hqdec hnotmem
      have hlentake : (w.queue.take i).length = i := by
        rw [List.length_take]
        omega
      have htake_pres : (processTween now w (w.queue[i])).queue.take i =
          w.queue.take i := by
        rcases hcases with hq1 | hq1 <;> rw [hq1] <;> exact List.take_left' hlentake
      have hlen' : i ≤ (processTween now w (w.queue[i])).queue.length := by
        rcases hcases with hq1 | hq1 <;>
          rw [hq1, List.length_append, hlentake] <;> omega
      have hnd' : ((processTween now w (w.queue[i])).queue.take i).Nodup := by
        rw [htake_pres]
        exact hndtake
      rw [ih (processTween now w (w.queue[i])) hlen' hnd', htake_pres]
      have hfilter : (w.queue.take i).reverse.filter
            (fun id => isPlaying ((processTween now w (w.queue[i])).tweens id)) =
          (w.queue.take i).reverse.filter (fun id => isPlaying (w.tweens id)) := by
        apply List.filter_congr
        intro a ha
        have hne : a ≠ w.queue[i] := by
          intro hcontra
          exact hnotmem (hcontra ▸ List.mem_reverse.mp ha)
        rw [processTween_tweens_ne now w _ a hne]
      rw [hfilter, htake]
      simp only [List.reverse_append, List.reverse_cons, List.reverse_nil,
        List.nil_append, List.singleton_append]
      rw [List.filter_cons, if_pos hplay, tickAll_cons]

/-- C9: a `processQueue` invocation equals the plain fold, with the one
captured `now`, of `processTween` over the back-to-front snapshot of the
queue entries that are playing when the walk starts: non-playing entries
are skipped, no entry is skipped or processed twice on account of a
mid-walk self-removal, and every processed instance records exactly one
tick carrying the identical shared `now`. -/
theorem claim9_processQueue_walk (now : ℚ) (w : World) (hnd : w.queue.Nodup) :
    processQueue now w =
      tickAll now (w.queue.reverse.filter (fun id => isPlaying (w.tweens id))) w ∧
    ∀ id ∈ w.queue,
      ((processQueue now w).tweens id).tickLog =
        (w.tweens id).tickLog ++
          (if isPlaying (w.tweens id) = true then [now] else []) := by
  have hmain : processQueue now w =
      tickAll now (w.queue.reverse.filter (fun id => isPlaying (w.tweens id))) w := by
    have h := processQueueLoop_eq_tickAll now w.queue.length w le_rfl
      (by rw [List.take_length]; exact hnd)
    rw [processQueue, h, List.take_length]
  refine ⟨hmain, fun id hid => ?_⟩
  rw [hmain]
  have hndfilter : (w.queue.reverse.filter
      (fun id => isPlaying (w.tweens id))).Nodup :=
    (List.nodup_reverse.mpr hnd).filter _
  cases hplay : isPlaying (w.tweens id) with
  | true =>
    have hmemf : id ∈ w.queue.reverse.filter (fun id => isPlaying (w.tweens id)) := by
      rw [List.mem_filter, List.mem_reverse]
      exact ⟨hid, hplay⟩
    rw [tickAll_tickLog now _ w id hndfilter, if_pos hmemf]
    simp
  | false =>
    have hnmem : id ∉ w.queue.reverse.filter (fun id => isPlaying (w.tweens id)) := by
      intro hc
      rw [List.mem_filter, hplay] at hc
      exact Bool.false_ne_true hc.2
    rw [tickAll_tickLog now _ w id hndfilter, if_neg hnmem]
    simp

def w9w : World :=
  { queue := [0, 1],
    tweens := fun i => if i = 0 then twLin else tw2w,
    formulas := idFormulas }

/-- C9 witness: with two distinct playing tweens queued together, one
scheduler pass equals the fold of single ticks sharing `now = 5`, and
instance 0 logs exactly one tick with that `now`. -/
theorem claim9_witness :
    processQueue 5 w9w =
      tickAll 5 (w9w.queue.reverse.filter (fun id => isPlaying (w9w.tweens id))) w9w ∧
    ((processQueue 5 w9w).tweens 0).tickLog =
      (w9w.tweens 0).tickLog ++
        (if isPlaying (w9w.tweens 0) = true then [5] else []) :=
  ⟨(claim9_processQueue_walk 5 w9w (by decide)).1,
    (claim9_processQueue_walk 5 w9w (by decide)).2 0 (by decide)⟩

end Shifty
